import Mathlib

/-
  Verification development for the `emotioncf` collaborative-filtering library
  (src/emotioncf/cf.py and src/emotioncf/utils.py).

  Rating matrices are embedded as functions `Fin m → Fin n → Option ℚ`
  (`none` models a missing / NaN cell); boolean masks as
  `Fin m → Fin n → Bool`.  Float arithmetic is modelled by exact rational
  arithmetic; where numpy produces NaN from a 0/0 division on an empty
  neighbour set we model the result as `none` explicitly.
-/

namespace EmotionCF

/-! ### NNMF_mult.fit loop control (cf.py line 813-817)

The `while` continuation condition of `NNMF_mult.fit` is, verbatim from the
source:

    while (ctr <= max_iterations
           or current_resid < error_limit
           or fit_residual < fit_error_limit):
-/

def nnmfMultContinue (ctr maxIterations : ℕ)
    (currentResid errorLimit fitResidual fitErrorLimit : ℚ) : Bool :=
  decide (ctr ≤ maxIterations) || decide (currentResid < errorLimit)
    || decide (fitResidual < fitErrorLimit)

/-! ### Train/test split (cf.py `BaseCF.split_train_test`, lines 273-302)

`split_train_test` converts a float fraction `f` into
`int(np.round(data.shape[1] * f))` items per row (`np.round` rounds halves
to even), then starts from an all-`False` mask and, independently per row,
sets the cells of `n_train_items` columns drawn without replacement to
`True`.  The random draw is modelled by a per-row `Finset` of columns of
the right cardinality. -/

/-- `np.round` semantics on rationals: round to the nearest integer,
ties to the even integer. -/

def roundHalfEven (q : ℚ) : ℤ :=
  let fl := ⌊q⌋
  let fr := q - fl
  if fr < 1 / 2 then fl
  else if 1 / 2 < fr then fl + 1
  else if 2 ∣ fl then fl else fl + 1

/-- `int(np.round(cols * f))` from `split_train_test`. -/

def nTrainItems (cols : ℕ) (f : ℚ) : ℕ :=
  (roundHalfEven (f * cols)).toNat

/-- The boolean mask built by `split_train_test`: all-`False`, then for
each row the chosen columns are set to `True`. -/

def splitMask (m c : ℕ) (choose : Fin m → Finset (Fin c)) :
    Fin m → Fin c → Bool :=
  fun i j => decide (j ∈ choose i)

/-! ### Evaluation on the `all` partition (cf.py lines 58-76 and 486-525)

`get_mse` calls `_retrieve_predictions(dataset)` and returns
`np.nanmean((pred - actual) ** 2)`.  For `dataset == "all"`:
  * with a plain mask, `actual = masked_data.values[train_mask.values]`
    and `predicted = predictions.values[train_mask.values]`;
  * with a dilated mask, the same with `dilated_mask` (and `masked_data`
    is the dilated data, whose NaN pattern defines `dilated_mask`);
  * without a mask, both matrices are flattened whole.
-/

/-- Row-major list of all cells of an `m × n` matrix. -/

def cellsList (m n : ℕ) : List (Fin m × Fin n) :=
  (List.finRange m).flatMap fun i => (List.finRange n).map fun j => (i, j)

/-- `masked_data = data[train_mask]`: the rating where the mask is `True`,
missing elsewhere. -/

def maskedData {m n : ℕ} (data : Fin m → Fin n → Option ℚ)
    (mask : Fin m → Fin n → Bool) : Fin m → Fin n → Option ℚ :=
  fun i j => if mask i j then data i j else none

/-- `_retrieve_predictions("all")`: the (actual, predicted) pairs the
metric is computed over, in row-major order. -/

def retrievePredictionsAll {m n : ℕ} (isMask isMaskDilated : Bool)
    (data : Fin m → Fin n → Option ℚ) (trainMask : Fin m → Fin n → Bool)
    (dilatedData : Fin m → Fin n → Option ℚ)
    (dilatedMask : Fin m → Fin n → Bool)
    (pred : Fin m → Fin n → Option ℚ) : List (Option ℚ × Option ℚ) :=
  if isMask then
    if isMaskDilated then
      (cellsList m n).filterMap fun p =>
        if dilatedMask p.1 p.2 then some (dilatedData p.1 p.2, pred p.1 p.2)
        else none
    else
      (cellsList m n).filterMap fun p =>
        if trainMask p.1 p.2 then
          some (maskedData data trainMask p.1 p.2, pred p.1 p.2)
        else none
  else
    (cellsList m n).map fun p => (data p.1 p.2, pred p.1 p.2)

/-- The (actual, predicted) pairs where both sides are present — the cells
a NaN-aware metric actually compares. -/

def comparedPairs (l : List (Option ℚ × Option ℚ)) : List (ℚ × ℚ) :=
  l.filterMap fun p =>
    match p.1, p.2 with
    | some a, some b => some (a, b)
    | _, _ => none

/-- `np.nanmean`: mean of the non-NaN entries, NaN when there are none. -/

def nanmeanList (l : List (Option ℚ)) : Option ℚ :=
  let v := l.filterMap id
  if v.length = 0 then none else some (v.sum / v.length)

/-- `get_mse`: `np.nanmean((pred - actual) ** 2)` over retrieved pairs. -/

def get_mse (pairs : List (Option ℚ × Option ℚ)) : Option ℚ :=
  nanmeanList (pairs.map fun p =>
    match p.1, p.2 with
    | some a, some b => some ((b - a) ^ 2)
    | _, _ => none)

/-- Modelled from the spec's words for the `all` partition: "every cell of
the (possibly masked) data" — the data matrix the `all` partition is read
against. -/

def specAllData {m n : ℕ} (isMask isMaskDilated : Bool)
    (data : Fin m → Fin n → Option ℚ) (trainMask : Fin m → Fin n → Bool)
    (dilatedData : Fin m → Fin n → Option ℚ) :
    Fin m → Fin n → Option ℚ :=
  if isMask then
    if isMaskDilated then dilatedData else maskedData data trainMask
  else data

/-! ### NNMF multiplicative updates (cf.py `NNMF_mult.fit`, lines 751-849)

W is `n_users × n_factors` and H is `n_items × n_factors`; the products
`np.dot(W, H)`, `np.dot(masked_X, H.T)` etc. only type-check when
`n_factors = n_items` (the code's default; its own TODO at line 808 notes
that other values break), so the embedding fixes `n_factors = n` items.

The factor matrices carry `NpValue`, a numpy-double model with exact
finite rationals plus `±inf` and `nan`, because the update's division can
hit `0.0 / 0.0 = nan` (an all-`False` mask row makes both the masked data
row and the denominator row zero) and `np.maximum(nan, eps) = nan`, so
NaN survives the epsilon clamp.  `masked_X` and `mask` themselves are
always finite in the program — `masked_X[np.isnan(masked_X)] = 0`
replaces every NaN and the mask is boolean — so they stay plain `ℚ`
matrices.  Signed zero is not modelled (no operation here distinguishes
`-0.0`). -/

/-- A numpy double: a finite rational, `±inf`, or `nan`. -/
inductive NpValue where
  | fin (q : ℚ)
  | posInf
  | negInf
  | nan
deriving DecidableEq

/-- IEEE addition on `NpValue`. -/
def npAdd : NpValue → NpValue → NpValue
  | .nan, _ => .nan
  | _, .nan => .nan
  | .posInf, .negInf => .nan
  | .negInf, .posInf => .nan
  | .posInf, .posInf => .posInf
  | .posInf, .fin _ => .posInf
  | .fin _, .posInf => .posInf
  | .negInf, .negInf => .negInf
  | .negInf, .fin _ => .negInf
  | .fin _, .negInf => .negInf
  | .fin a, .fin b => .fin (a + b)

/-- IEEE multiplication on `NpValue` (`inf * 0 = nan`). -/
def npMul : NpValue → NpValue → NpValue
  | .nan, _ => .nan
  | _, .nan => .nan
  | .fin a, .fin b => .fin (a * b)
  | .posInf, .fin b =>
      if b = 0 then .nan else if 0 < b then .posInf else .negInf
  | .negInf, .fin b =>
      if b = 0 then .nan else if 0 < b then .negInf else .posInf
  | .fin a, .posInf =>
      if a = 0 then .nan else if 0 < a then .posInf else .negInf
  | .fin a, .negInf =>
      if a = 0 then .nan else if 0 < a then .negInf else .posInf
  | .posInf, .posInf => .posInf
  | .posInf, .negInf => .negInf
  | .negInf, .posInf => .negInf
  | .negInf, .negInf => .posInf

/-- IEEE division on `NpValue`: `0/0`, `inf/inf` are `nan`; a nonzero
finite numerator over zero is `±inf` (numpy's zeros here are `+0.0`). -/
def npDiv : NpValue → NpValue → NpValue
  | .nan, _ => .nan
  | _, .nan => .nan
  | .fin a, .fin b =>
      if b = 0 then
        if a = 0 then .nan else if 0 < a then .posInf else .negInf
      else .fin (a / b)
  | .posInf, .fin b => if 0 ≤ b then .posInf else .negInf
  | .negInf, .fin b => if 0 ≤ b then .negInf else .posInf
  | .fin _, .posInf => .fin 0
  | .fin _, .negInf => .fin 0
  | .posInf, .posInf => .nan
  | .posInf, .negInf => .nan
  | .negInf, .posInf => .nan
  | .negInf, .negInf => .nan

/-- `np.maximum`: NaN propagates (unlike `np.fmax`). -/
def npMax : NpValue → NpValue → NpValue
  | .nan, _ => .nan
  | _, .nan => .nan
  | .posInf, _ => .posInf
  | _, .posInf => .posInf
  | .negInf, y => y
  | x, .negInf => x
  | .fin a, .fin b => .fin (max a b)

/-- The sum a matrix-product cell is built from. -/
def npSum {n : ℕ} (f : Fin n → NpValue) : NpValue :=
  (List.finRange n).foldr (fun k acc => npAdd (f k) acc) (.fin 0)

/-- The positive floor `eps = 1e-5` from `NNMF_mult.fit`. -/
def nnmfEps : ℚ := 1 / 100000

/-- `W *= np.dot(masked_X, H.T) / np.dot(mask * np.dot(W, H), H.T);
W = np.maximum(W, eps)`. -/
def nnmfMultUpdateW {u n : ℕ} (maskedX mask : Fin u → Fin n → ℚ)
    (W : Fin u → Fin n → NpValue) (H : Fin n → Fin n → NpValue) :
    Fin u → Fin n → NpValue :=
  fun i a =>
    npMax (npMul (W i a)
      (npDiv (npSum fun k => npMul (.fin (maskedX i k)) (H a k))
        (npSum fun k =>
          npMul (npMul (.fin (mask i k)) (npSum fun l => npMul (W i l) (H l k)))
            (H a k)))) (.fin nnmfEps)

/-- `H *= np.dot(W.T, masked_X) / np.dot(W.T, mask * np.dot(W, H));
H = np.maximum(H, eps)` — evaluated with the already-updated `W`. -/
def nnmfMultUpdateH {u n : ℕ} (maskedX mask : Fin u → Fin n → ℚ)
    (W : Fin u → Fin n → NpValue) (H : Fin n → Fin n → NpValue) :
    Fin n → Fin n → NpValue :=
  fun a b =>
    npMax (npMul (H a b)
      (npDiv (npSum fun k => npMul (W k a) (.fin (maskedX k b)))
        (npSum fun k =>
          npMul (W k a)
            (npMul (.fin (mask k b)) (npSum fun l => npMul (W k l) (H l b))))))
      (.fin nnmfEps)

/-- One iteration of the multiplicative-update loop: update `W`, then
update `H` using the new `W`. -/
def nnmfMultIter {u n : ℕ} (maskedX mask : Fin u → Fin n → ℚ)
    (WH : (Fin u → Fin n → NpValue) × (Fin n → Fin n → NpValue)) :
    (Fin u → Fin n → NpValue) × (Fin n → Fin n → NpValue) :=
  let W1 := nnmfMultUpdateW maskedX mask WH.1 WH.2
  let H1 := nnmfMultUpdateH maskedX mask W1 WH.2
  (W1, H1)

/-- `k` iterations of the multiplicative-update loop. -/
def nnmfMultIterate {u n : ℕ} (maskedX mask : Fin u → Fin n → ℚ) :
    ℕ → (Fin u → Fin n → NpValue) × (Fin n → Fin n → NpValue) →
      (Fin u → Fin n → NpValue) × (Fin n → Fin n → NpValue)
  | 0, wh => wh
  | k + 1, wh => nnmfMultIter maskedX mask (nnmfMultIterate maskedX mask k wh)

/-! ### Dilation transform (cf.py `BaseCF._conv_ts_mean_overlap`, 527-554) -/

/-- `np.convolve` in its default full mode:
`conv[k] = Σ_{i+j=k} a[i] * b[j]`, of length `len(a) + len(b) - 1`. -/

def npConvolve (a b : List ℚ) : List ℚ :=
  (List.range (a.length + b.length - 1)).map fun k =>
    ∑ j in (Finset.range a.length).filter (fun j => j ≤ k ∧ k - j < b.length),
      a.getD j 0 * b.getD (k - j) 0

/-- `_conv_ts_mean_overlap`: indicator of observed cells, zero-filled
values, convolution of both with a ones window truncated to the input
length, division where the coverage is ≥ 1 and NaN where it is 0. -/

def conv_ts_mean_overlap (subRating : List (Option ℚ)) (nSamples : ℕ) :
    List (Option ℚ) :=
  let binSubRating : List ℚ := subRating.map fun x => if x.isSome then 1 else 0
  let filled : List ℚ := subRating.map fun x => x.getD 0
  let filt : List ℚ := List.replicate nSamples 1
  let binConv := (npConvolve binSubRating filt).take subRating.length
  let subConv := (npConvolve filled filt).take subRating.length
  (List.range subRating.length).map fun k =>
    let b := binConv.getD k 0
    let v := subConv.getD k 0
    if 1 ≤ b then some (v / b) else if b = 0 then none else some v

/-- The forward window feeding output position `k`: the observation
indices `i` with `i ≤ k < i + nSamples` — each observation spreads forward
up to `nSamples` positions. -/

def forwardWindow (len nSamples k : ℕ) : Finset ℕ :=
  (Finset.range len).filter fun i => i ≤ k ∧ k < i + nSamples

/-- Number of observed cells covering output position `k`. -/

def coverageCount (subRating : List (Option ℚ)) (nSamples k : ℕ) : ℚ :=
  ∑ i in forwardWindow subRating.length nSamples k,
    (if (subRating.getD i none).isSome then (1 : ℚ) else 0)

/-- Sum of the zero-filled observed values covering output position `k`. -/

def windowValueSum (subRating : List (Option ℚ)) (nSamples k : ℕ) : ℚ :=
  ∑ i in forwardWindow subRating.length nSamples k,
    (subRating.getD i none).getD 0

/-! ### Predict lifecycle and KNN prediction (cf.py 614-629, 689-730,
851-864, 1061-1079)

`Mean.predict`, `KNN.predict` and `NNMF_mult.predict` each begin with
`if not self.is_fit: raise ValueError(...)`; `NNMF_sgd.predict` performs
no such check and goes straight to the trained attributes.  Python
attribute errors on unfit models are modelled by `Option`-valued
attribute slots that are `none` until `fit` assigns them. -/

inductive CFError where
  | notFitted
  | notPredicted
  | noViableNeighbors
  | attributeMissing (attr : String)

/-- `Mean.predict`: lifecycle check, then broadcast the item means into
every row. -/

def meanPredict {m n : ℕ} (isFit : Bool) (mean : Fin n → Option ℚ) :
    Except CFError (Fin m → Fin n → Option ℚ) :=
  if isFit then .ok fun _ j => mean j else .error .notFitted

/-- `np.dot` of similarity weights with the neighbours' raw ratings:
any missing rating poisons the whole dot product (NaN propagation). -/

def nanDot (pairs : List (ℚ × Option ℚ)) : Option ℚ :=
  pairs.foldr (fun p acc =>
    match p.2, acc with
    | some r, some s => some (p.1 * r + s)
    | _, _ => none) (some 0)

/-- Division of the dot product by the neighbour count: numpy's
`0.0 / 0` on an empty neighbour set is NaN. -/

def nanDivCount (x : Option ℚ) (c : ℕ) : Option ℚ :=
  if c = 0 then none else x.map fun v => v / (c : ℚ)

/-- `top_subjects`: slice the first `k` entries of the similarity row
(already self-dropped and sorted descending with NaN last), then remove
the NaN subjects — `sort_values(ascending=False)[0:k]` followed by
`top_subjects[~top_subjects.isnull()]`. -/

def knnTopSubjects {m : ℕ} (sortedOthers : List (Fin m × Option ℚ))
    (k : Option ℕ) : List (Fin m × ℚ) :=
  let sliced := match k with
    | some kk => sortedOthers.take kk
    | none => sortedOthers
  sliced.filterMap fun p => p.2.map fun v => (p.1, v)

/-- One cell of `KNN.predict`:
`np.dot(top_subjects, self.data.loc[top_subjects.index, col]) /
len(top_subjects)` — against the full unmasked data. -/

def knnPredictCell {m n : ℕ} (data : Fin m → Fin n → Option ℚ)
    (sortedOthers : List (Fin m × Option ℚ)) (k : Option ℕ)
    (item : Fin n) : Option ℚ :=
  let top := knnTopSubjects sortedOthers k
  nanDivCount (nanDot (top.map fun p => (p.2, data p.1 item))) top.length

/-- `KNN.predict`: lifecycle check, then the cell formula everywhere.
`sortedOthers i` is subject `i`'s similarity row with the self entry
dropped, sorted descending with NaN entries last. -/

def knnPredict {m n : ℕ} (isFit : Bool) (data : Fin m → Fin n → Option ℚ)
    (sortedOthers : Fin m → List (Fin m × Option ℚ)) (k : Option ℕ) :
    Except CFError (Fin m → Fin n → Option ℚ) :=
  if isFit then .ok fun i j => knnPredictCell data (sortedOthers i) k j
  else .error .notFitted

/-- `NNMF_mult.predict`: lifecycle check, then `np.dot(W, H)`. -/

def nnmfMultPredict {u n : ℕ} (isFit : Bool) (W : Fin u → Fin n → ℚ)
    (H : Fin n → Fin n → ℚ) :
    Except CFError (Fin u → Fin n → Option ℚ) :=
  if isFit then .ok fun i j => some (∑ l, W i l * H l j)
  else .error .notFitted

/-- The attributes `NNMF_sgd.fit` assigns; `none` while the model is
unfit. -/

structure SgdModelAttrs (m n f : ℕ) where
  globalBias : Option ℚ
  userBias : Option (Fin m → ℚ)
  itemBias : Option (Fin n → ℚ)
  userVecs : Option (Fin m → Fin f → ℚ)
  itemVecs : Option (Fin n → Fin f → ℚ)

/-- `NNMF_sgd.predict`: no `is_fit` check; the loop header
`range(self.user_vecs.shape[0])` touches `user_vecs` first, so an unfit
call dies on that missing attribute.  The `isFit` flag is deliberately
unused, mirroring the source. -/

def nnmfSgdPredict {m n f : ℕ} (_isFit : Bool)
    (attrs : SgdModelAttrs m n f) :
    Except CFError (Fin m → Fin n → Option ℚ) :=
  match attrs.userVecs with
  | none => .error (.attributeMissing "user_vecs")
  | some uv =>
      match attrs.itemVecs with
      | none => .error (.attributeMissing "item_vecs")
      | some iv =>
          match attrs.globalBias, attrs.userBias, attrs.itemBias with
          | some gb, some ub, some ib =>
              .ok fun u i => some (gb + ub u + ib i + ∑ j, uv u j * iv i j)
          | _, _, _ => .error (.attributeMissing "global_bias")

/-- Modelled from the spec's words for `KNN.predict`: the top-`k` (all,
if `k` is `None`) neighbours among the other subjects with a non-NaN
similarity. -/

def specTopNeighbors {m : ℕ} (sortedOthers : List (Fin m × Option ℚ))
    (k : Option ℕ) : List (Fin m × ℚ) :=
  let nonNaN := sortedOthers.filterMap fun p => p.2.map fun v => (p.1, v)
  match k with
  | some kk => nonNaN.take kk
  | none => nonNaN

/-! ### NNMF_sgd.fit training loop (cf.py lines 886-1029)

The per-observation updates, the per-epoch normalized error and the
convergence check are embedded directly; the per-epoch random shuffle of
the observed indices is a parameter (`orders`, one index list per epoch
number).  The source initializes `last_e = 0` before the epoch loop and
the assignment `last_e = norm_e` sits *after* the loop (line 1013), so
`last_e` stays 0 at every in-loop convergence check; the embedding
reproduces this by carrying `lastE` through the loop unchanged.
`delta`/`normE` start as `none`, standing for the initial `np.inf`
values, which the loop overwrites before ever comparing them. -/

structure SgdState (m n f : ℕ) where
  userBias : Fin m → ℚ
  itemBias : Fin n → ℚ
  userVecs : Fin m → Fin f → ℚ
  itemVecs : Fin n → Fin f → ℚ

structure SgdParams where
  learningRate : ℚ
  userFactReg : ℚ
  itemFactReg : ℚ
  userBiasReg : ℚ
  itemBiasReg : ℚ

/-- `_predict_single(u, i)`. -/

def predictSingle {m n f : ℕ} (gb : ℚ) (st : SgdState m n f)
    (u : Fin m) (i : Fin n) : ℚ :=
  gb + st.userBias u + st.itemBias i
    + ∑ j, st.userVecs u j * st.itemVecs i j

/-- One observation's SGD update: error, bias updates, user-vector
update, then the item-vector update with the already-updated user vector
(just as in the source).  Returns the new state and the error `e`. -/

def sgdObsStep {m n f : ℕ} (p : SgdParams) (gb : ℚ)
    (dataAt : Fin m → Fin n → ℚ) (st : SgdState m n f)
    (ui : Fin m × Fin n) : SgdState m n f × ℚ :=
  let u := ui.1
  let i := ui.2
  let e := dataAt u i - predictSingle gb st u i
  let ub := Function.update st.userBias u
    (st.userBias u + p.learningRate * (e - p.userBiasReg * st.userBias u))
  let ib := Function.update st.itemBias i
    (st.itemBias i + p.learningRate * (e - p.itemBiasReg * st.itemBias i))
  let uv := Function.update st.userVecs u fun j =>
    st.userVecs u j
      + p.learningRate * (e * st.itemVecs i j
        - p.userFactReg * st.userVecs u j)
  let iv := Function.update st.itemVecs i fun j =>
    st.itemVecs i j
      + p.learningRate * (e * uv u j - p.itemFactReg * st.itemVecs i j)
  (⟨ub, ib, uv, iv⟩, e)

structure SgdLoopState (m n f : ℕ) where
  st : SgdState m n f
  e : ℚ
  lastE : ℚ
  delta : Option ℚ
  normE : Option ℚ
  hist : List ℚ
  ctr : ℕ
  converged : Bool

/-- One full epoch: run the per-observation updates over the epoch's
index order, then compute `norm_e = |e| / max_norm` from the *last*
observation's error, `delta = ||norm_e| - |last_e||` (with `last_e`
carried unchanged), record the error history and the convergence flag
`delta < tol`. -/

def sgdEpochStep {m n f : ℕ} (p : SgdParams) (gb tol maxNorm : ℚ)
    (dataAt : Fin m → Fin n → ℚ) (order : List (Fin m × Fin n))
    (ls : SgdLoopState m n f) : SgdLoopState m n f :=
  let inner := order.foldl
    (fun acc ui => sgdObsStep p gb dataAt acc.1 ui) (ls.st, ls.e)
  let ne := |inner.2| / maxNorm
  let d := |(|ne| - |ls.lastE|)|
  { st := inner.1, e := inner.2, lastE := ls.lastE,
    delta := some d, normE := some ne, hist := ls.hist ++ [ne],
    ctr := ls.ctr + 1, converged := decide (d < tol) }

/-- The epoch loop `for ctr in range(1, n_iterations + 1)` with the
`break` on convergence. -/

def sgdLoopGo {m n f : ℕ} (p : SgdParams) (gb tol maxNorm : ℚ)
    (dataAt : Fin m → Fin n → ℚ) (orders : ℕ → List (Fin m × Fin n)) :
    ℕ → SgdLoopState m n f → SgdLoopState m n f
  | 0, ls => ls
  | rem + 1, ls =>
      let next := sgdEpochStep p gb tol maxNorm dataAt
        (orders (ls.ctr + 1)) ls
      if next.converged then next
      else sgdLoopGo p gb tol maxNorm dataAt orders rem next

/-- `NNMF_sgd.fit`'s training loop from freshly initialized loop state
(`ctr` counts executed epochs, `last_e = 0`, no history). -/

def sgdFit {m n f : ℕ} (p : SgdParams) (gb tol maxNorm : ℚ)
    (dataAt : Fin m → Fin n → ℚ) (orders : ℕ → List (Fin m × Fin n))
    (nIterations : ℕ) (init : SgdState m n f) : SgdLoopState m n f :=
  sgdLoopGo p gb tol maxNorm dataAt orders nIterations
    { st := init, e := 0, lastE := 0, delta := none, normE := none,
      hist := [], ctr := 0, converged := false }

/-! ### The mask invariant (C7)

`utils.create_train_test_mask` (utils.py lines 118-155) refuses data that
already contains NaNs; `BaseCF.split_train_test` (cf.py lines 292-302)
draws its per-row columns with no regard to missing cells. -/

/-- The spec's mask invariant: every `True` cell corresponds to a
non-missing rating. -/

def maskInvariant {m c : ℕ} (data : Fin m → Fin c → Option ℚ)
    (mask : Fin m → Fin c → Bool) : Prop :=
  ∀ i j, mask i j = true → (data i j).isSome = true

/-- `utils.create_train_test_mask`: raises when the data already contains
NaNs, otherwise builds an independent per-row mask with the drawn columns
set to `True`. -/

def create_train_test_mask {m c : ℕ} (data : Fin m → Fin c → Option ℚ)
    (choose : Fin m → Finset (Fin c)) :
    Except String (Fin m → Fin c → Bool) :=
  if ∃ i j, data i j = none then
    .error "data already contains NaNs and further masking is ambiguous!"
  else
    .ok fun i j => decide (j ∈ choose i)

lemma roundHalfEven_nonneg {q : ℚ} (hq : 0 ≤ q) : 0 ≤ roundHalfEven q := by
  unfold roundHalfEven
  have hfl : (0 : ℤ) ≤ ⌊q⌋ := Int.floor_nonneg.mpr hq
  dsimp only
  split_ifs <;> omega

lemma roundHalfEven_le {q : ℚ} {c : ℕ} (hq : q ≤ (c : ℚ)) :
    roundHalfEven q ≤ (c : ℤ) := by
  unfold roundHalfEven
  have hfl : ⌊q⌋ ≤ (c : ℤ) := by
    have := Int.floor_le_floor hq
    simpa using this
  dsimp only
  split_ifs with h1 h2 h3
  · exact hfl
  · -- fractional part exceeds 1/2, so the floor is strictly below q ≤ c
    have hlt : (⌊q⌋ : ℚ) < q := by
      have : (0 : ℚ) < q - ⌊q⌋ := lt_trans (by norm_num) h2
      linarith
    have : ⌊q⌋ < (c : ℤ) := by
      have : (⌊q⌋ : ℚ) < (c : ℚ) := lt_of_lt_of_le hlt hq
      exact_mod_cast this
    omega
  · exact hfl
  · -- fractional part is exactly 1/2
    have h12 : q - ⌊q⌋ = 1 / 2 := le_antisymm (not_lt.mp h2) (not_lt.mp h1)
    have hlt : (⌊q⌋ : ℚ) < q := by
      have : (0 : ℚ) < q - ⌊q⌋ := by rw [h12]; norm_num
      linarith
    have : ⌊q⌋ < (c : ℤ) := by
      have : (⌊q⌋ : ℚ) < (c : ℚ) := lt_of_lt_of_le hlt hq
      exact_mod_cast this
    omega

lemma nTrainItems_le_cols {cols : ℕ} {f : ℚ} (hf1 : f ≤ 1) :
    nTrainItems cols f ≤ cols := by
  unfold nTrainItems
  have hq : f * (cols : ℚ) ≤ (cols : ℚ) := by
    have hc : (0 : ℚ) ≤ (cols : ℚ) := by positivity
    nlinarith
  have := roundHalfEven_le hq
  omega

lemma nTrainItems_four_half : nTrainItems 4 (1 / 2) = 2 := by
  norm_num [nTrainItems, roundHalfEven]
  rfl

lemma nTrainItems_one_one : nTrainItems 1 1 = 1 := by
  norm_num [nTrainItems, roundHalfEven]

lemma comparedPairs_cons (x : Option ℚ × Option ℚ)
    (l : List (Option ℚ × Option ℚ)) :
    comparedPairs (x :: l)
      = (match x.1, x.2 with
          | some a, some b => [(a, b)]
          | _, _ => []) ++ comparedPairs l := by
  unfold comparedPairs
  rw [List.filterMap_cons]
  rcases x with ⟨a, b⟩
  cases a <;> cases b <;> simp

lemma comparedPairs_filterMap_mask {m n : ℕ}
    (data : Fin m → Fin n → Option ℚ) (mask : Fin m → Fin n → Bool)
    (pred : Fin m → Fin n → Option ℚ) (cells : List (Fin m × Fin n)) :
    comparedPairs (cells.filterMap fun p =>
        if mask p.1 p.2 then some (maskedData data mask p.1 p.2, pred p.1 p.2)
        else none)
      = comparedPairs (cells.map fun p =>
          (maskedData data mask p.1 p.2, pred p.1 p.2)) := by
  induction cells with
  | nil => rfl
  | cons p rest ih =>
      rw [List.filterMap_cons, List.map_cons]
      by_cases hp : mask p.1 p.2
      · rw [if_pos hp, comparedPairs_cons, comparedPairs_cons, ih]
      · rw [if_neg hp, comparedPairs_cons, ih]
        have hmd : maskedData data mask p.1 p.2 = none := by
          unfold maskedData
          rw [if_neg hp]
        rw [hmd]
        cases pred p.1 p.2 <;> simp

lemma comparedPairs_filterMap_dilated {m n : ℕ}
    (dilatedData : Fin m → Fin n → Option ℚ)
    (dilatedMask : Fin m → Fin n → Bool)
    (pred : Fin m → Fin n → Option ℚ) (cells : List (Fin m × Fin n))
    (hdm : ∀ i j, dilatedMask i j = (dilatedData i j).isSome) :
    comparedPairs (cells.filterMap fun p =>
        if dilatedMask p.1 p.2 then some (dilatedData p.1 p.2, pred p.1 p.2)
        else none)
      = comparedPairs (cells.map fun p =>
          (dilatedData p.1 p.2, pred p.1 p.2)) := by
  induction cells with
  | nil => rfl
  | cons p rest ih =>
      rw [List.filterMap_cons, List.map_cons]
      by_cases hp : dilatedMask p.1 p.2
      · rw [if_pos hp, comparedPairs_cons, comparedPairs_cons, ih]
      · rw [if_neg hp, comparedPairs_cons, ih]
        have hmd : dilatedData p.1 p.2 = none := by
          rw [hdm p.1 p.2] at hp
          exact Option.not_isSome_iff_eq_none.mp hp
        rw [hmd]
        cases pred p.1 p.2 <;> simp

lemma getD_map_range {α : Type} (L : ℕ) (f : ℕ → α) (k : ℕ) (d : α) :
    ((List.range L).map f).getD k d = if k < L then f k else d := by
  rw [List.getD_eq_getElem?_getD, List.getElem?_map]
  by_cases h : k < L
  · rw [List.getElem?_range h]
    simp [h]
  · rw [List.getElem?_eq_none (by simpa using Nat.le_of_not_lt h)]
    simp [h]

lemma getD_take {α : Type} (l : List α) (L k : ℕ) (h : k < L) (d : α) :
    (l.take L).getD k d = l.getD k d := by
  rw [List.getD_eq_getElem?_getD, List.getD_eq_getElem?_getD,
    List.getElem?_take]
  rw [if_pos h]

lemma getD_replicate {α : Type} (n m : ℕ) (x d : α) :
    (List.replicate n x).getD m d = if m < n then x else d := by
  induction n generalizing m with
  | zero => simp [List.getD]
  | succ n ih =>
      cases m with
      | zero => simp [List.replicate, List.getD]
      | succ m =>
          simp only [List.replicate, List.getD_cons_succ, ih]
          by_cases h : m < n
          · rw [if_pos h, if_pos (by omega)]
          · rw [if_neg h, if_neg (by omega)]

/-- The full ones-window convolution evaluated at any index is the
forward-window sum. -/

lemma npConvolve_ones_getD (a : List ℚ) (nSamples k : ℕ) :
    (npConvolve a (List.replicate nSamples 1)).getD k 0
      = ∑ j in (Finset.range a.length).filter
          (fun j => j ≤ k ∧ k < j + nSamples), a.getD j 0 := by
  unfold npConvolve
  rw [getD_map_range]
  simp only [List.length_replicate]
  have hset : (Finset.range a.length).filter
        (fun j => j ≤ k ∧ k - j < nSamples)
      = (Finset.range a.length).filter
        (fun j => j ≤ k ∧ k < j + nSamples) := by
    apply Finset.filter_congr
    intro j _
    constructor
    · rintro ⟨h1, h2⟩
      exact ⟨h1, by omega⟩
    · rintro ⟨h1, h2⟩
      exact ⟨h1, by omega⟩
  by_cases h : k < a.length + nSamples - 1
  · rw [if_pos h, hset]
    apply Finset.sum_congr rfl
    intro j hj
    simp only [Finset.mem_filter, Finset.mem_range] at hj
    rw [getD_replicate, if_pos (show k - j < nSamples by omega), mul_one]
  · rw [if_neg h]
    have hempty : (Finset.range a.length).filter
        (fun j => j ≤ k ∧ k < j + nSamples) = ∅ := by
      apply Finset.filter_false_of_mem
      intro j hj hcon
      simp only [Finset.mem_range] at hj
      obtain ⟨h1, h2⟩ := hcon
      omega
    rw [hempty, Finset.sum_empty]

/-- The binary coverage convolution equals `coverageCount`. -/

lemma binConv_eq_coverage (subRating : List (Option ℚ)) (nSamples k : ℕ)
    (hk : k < subRating.length) :
    ((npConvolve (subRating.map fun x => if x.isSome then (1 : ℚ) else 0)
        (List.replicate nSamples 1)).take subRating.length).getD k 0
      = coverageCount subRating nSamples k := by
  rw [getD_take _ _ _ hk, npConvolve_ones_getD]
  unfold coverageCount forwardWindow
  rw [List.length_map]
  apply Finset.sum_congr rfl
  intro j hj
  exact List.getD_map subRating (none : Option ℚ)
    (fun x => if x.isSome then (1 : ℚ) else 0)

/-- The value convolution equals `windowValueSum`. -/

lemma subConv_eq_windowValue (subRating : List (Option ℚ)) (nSamples k : ℕ)
    (hk : k < subRating.length) :
    ((npConvolve (subRating.map fun x => x.getD 0)
        (List.replicate nSamples 1)).take subRating.length).getD k 0
      = windowValueSum subRating nSamples k := by
  rw [getD_take _ _ _ hk, npConvolve_ones_getD]
  unfold windowValueSum forwardWindow
  rw [List.length_map]
  apply Finset.sum_congr rfl
  intro j hj
  exact List.getD_map subRating (none : Option ℚ) (fun x => x.getD 0)

/-- Coverage counts are 0 or at least 1. -/

lemma coverageCount_dichotomy (subRating : List (Option ℚ))
    (nSamples k : ℕ) :
    coverageCount subRating nSamples k = 0
      ∨ 1 ≤ coverageCount subRating nSamples k := by
  unfold coverageCount
  rw [Finset.sum_boole]
  rcases Nat.eq_zero_or_pos (((forwardWindow subRating.length nSamples k).filter
      (fun i => (subRating.getD i none).isSome = true)).card) with h | h
  · left
    rw [h]
    norm_num
  · right
    exact_mod_cast h

lemma filterMap_simPairs_nil {m : ℕ} (l : List (Fin m × Option ℚ))
    (h : ∀ p ∈ l, p.2 = none) :
    (l.filterMap fun p => p.2.map fun v => (p.1, v)) = [] := by
  induction l with
  | nil => rfl
  | cons a rest ih =>
      rw [List.filterMap_cons]
      rw [h a (by simp)]
      exact ih fun p hp => h p (by simp [hp])

lemma take_filterMap_somes_prefix {m : ℕ}
    (A B : List (Fin m × Option ℚ)) (kk : ℕ)
    (hA : ∀ p ∈ A, p.2.isSome = true) (hB : ∀ p ∈ B, p.2 = none) :
    ((A ++ B).take kk).filterMap (fun p => p.2.map fun v => (p.1, v))
      = ((A ++ B).filterMap (fun p => p.2.map fun v => (p.1, v))).take kk := by
  induction A generalizing kk with
  | nil =>
      simp only [List.nil_append]
      rw [filterMap_simPairs_nil B hB]
      rw [filterMap_simPairs_nil (B.take kk)
        (fun p hp => hB p (List.take_subset _ _ hp))]
      simp
  | cons a A ih =>
      have ha : a.2.isSome = true := hA a (by simp)
      obtain ⟨v, hv⟩ := Option.isSome_iff_exists.mp ha
      cases kk with
      | zero => rfl
      | succ kk =>
          simp only [List.cons_append, List.take_succ_cons,
            List.filterMap_cons, hv, Option.map_some']
          congr 1
          exact ih kk (fun p hp => hA p (by simp [hp]))

lemma get_mse_eq_of_comparedPairs {l₁ l₂ : List (Option ℚ × Option ℚ)}
    (h : comparedPairs l₁ = comparedPairs l₂) : get_mse l₁ = get_mse l₂ := by
  have key : ∀ l : List (Option ℚ × Option ℚ),
      (l.map fun p =>
        match p.1, p.2 with
        | some a, some b => some ((b - a) ^ 2)
        | _, _ => (none : Option ℚ)).filterMap id
      = (comparedPairs l).map fun q => (q.2 - q.1) ^ 2 := by
    intro l
    induction l with
    | nil => rfl
    | cons x rest ih =>
        rw [List.map_cons, List.filterMap_cons, comparedPairs_cons]
        rcases x with ⟨a, b⟩
        cases a <;> cases b <;> simp [ih]
  unfold get_mse nanmeanList
  rw [key l₁, key l₂, h]

lemma foldr_npAdd_fin_nonneg {ι : Type} (l : List ι) (f : ι → NpValue)
    (h : ∀ k ∈ l, ∃ q, f k = .fin q ∧ 0 ≤ q) :
    ∃ s, l.foldr (fun k acc => npAdd (f k) acc) (.fin 0) = .fin s ∧ 0 ≤ s := by
  induction l with
  | nil => exact ⟨0, rfl, le_refl 0⟩
  | cons a rest ih =>
      obtain ⟨qa, hqa, hqa0⟩ := h a (by simp)
      obtain ⟨s, hs, hs0⟩ := ih fun k hk => h k (by simp [hk])
      exact ⟨qa + s, by rw [List.foldr_cons, hs, hqa]; rfl, by linarith⟩

lemma foldr_npAdd_fin {ι : Type} (l : List ι) (f : ι → NpValue)
    (h : ∀ k ∈ l, ∃ q, f k = .fin q) :
    ∃ s, l.foldr (fun k acc => npAdd (f k) acc) (.fin 0) = .fin s := by
  induction l with
  | nil => exact ⟨0, rfl⟩
  | cons a rest ih =>
      obtain ⟨qa, hqa⟩ := h a (by simp)
      obtain ⟨s, hs⟩ := ih fun k hk => h k (by simp [hk])
      exact ⟨qa + s, by rw [List.foldr_cons, hs, hqa]; rfl⟩

lemma foldr_npAdd_fin_pos {ι : Type} (l : List ι) (f : ι → NpValue)
    (h : ∀ k ∈ l, ∃ q, f k = .fin q ∧ 0 ≤ q)
    (hex : ∃ k ∈ l, ∃ q, f k = .fin q ∧ 0 < q) :
    ∃ s, l.foldr (fun k acc => npAdd (f k) acc) (.fin 0) = .fin s ∧ 0 < s := by
  induction l with
  | nil =>
      obtain ⟨k, hk, _⟩ := hex
      simp at hk
  | cons a rest ih =>
      obtain ⟨qa, hqa, hqa0⟩ := h a (by simp)
      rcases hex with ⟨k, hk, q, hq, hq0⟩
      rcases List.mem_cons.mp hk with rfl | hkrest
      · obtain ⟨s, hs, hs0⟩ := foldr_npAdd_fin_nonneg rest f
          (fun k hk => h k (by simp [hk]))
        injection hqa.symm.trans hq with hqq
        refine ⟨qa + s, by rw [List.foldr_cons, hs, hqa]; rfl, ?_⟩
        rw [hqq]
        linarith
      · obtain ⟨s, hs, hs0⟩ := ih (fun k hk => h k (by simp [hk]))
          ⟨k, hkrest, q, hq, hq0⟩
        exact ⟨qa + s, by rw [List.foldr_cons, hs, hqa]; rfl, by linarith⟩

lemma npSum_fin {n : ℕ} (f : Fin n → NpValue)
    (h : ∀ k, ∃ q, f k = .fin q) : ∃ s, npSum f = .fin s := by
  unfold npSum
  exact foldr_npAdd_fin _ f fun k _ => h k

lemma npSum_fin_pos {n : ℕ} (f : Fin n → NpValue)
    (h : ∀ k, ∃ q, f k = .fin q ∧ 0 ≤ q)
    (hex : ∃ k q, f k = .fin q ∧ 0 < q) :
    ∃ s, npSum f = .fin s ∧ 0 < s := by
  unfold npSum
  apply foldr_npAdd_fin_pos _ f fun k _ => h k
  obtain ⟨k, q, hq, h0⟩ := hex
  exact ⟨k, List.mem_finRange k, q, hq, h0⟩

lemma npDiv_fin_of_pos {a b : ℚ} (hb : 0 < b) :
    npDiv (.fin a) (.fin b) = .fin (a / b) := by
  simp only [npDiv]
  rw [if_neg (ne_of_gt hb)]

/-- The `W` update keeps every entry finite and lifts it to at least
`eps`, provided the mask is non-negative with a positive entry in every
row and the current factors are finite and positive. -/
lemma nnmfMultUpdateW_floored {u n : ℕ}
    (maskedX mask : Fin u → Fin n → ℚ)
    (hmnn : ∀ i k, 0 ≤ mask i k)
    (hrow : ∀ i, ∃ k, 0 < mask i k)
    (W : Fin u → Fin n → NpValue) (H : Fin n → Fin n → NpValue)
    (hW : ∀ i a, ∃ q, W i a = .fin q ∧ 0 < q)
    (hH : ∀ a b, ∃ q, H a b = .fin q ∧ 0 < q) :
    ∀ i a, ∃ q, nnmfMultUpdateW maskedX mask W H i a = .fin q
      ∧ nnmfEps ≤ q ∧ 0 < q := by
  intro i a
  have hWH : ∀ k : Fin n,
      ∃ q, npSum (fun l => npMul (W i l) (H l k)) = .fin q ∧ 0 < q := by
    intro k
    apply npSum_fin_pos
    · intro l
      obtain ⟨w, hw, hw0⟩ := hW i l
      obtain ⟨x, hx, hx0⟩ := hH l k
      exact ⟨w * x, by rw [hw, hx]; rfl, (mul_pos hw0 hx0).le⟩
    · obtain ⟨w, hw, hw0⟩ := hW i a
      obtain ⟨x, hx, hx0⟩ := hH a k
      exact ⟨a, w * x, by rw [hw, hx]; rfl, mul_pos hw0 hx0⟩
  have hden : ∃ d, npSum (fun k =>
      npMul (npMul (.fin (mask i k)) (npSum fun l => npMul (W i l) (H l k)))
        (H a k)) = .fin d ∧ 0 < d := by
    apply npSum_fin_pos
    · intro k
      obtain ⟨wh, hwh, hwh0⟩ := hWH k
      obtain ⟨x, hx, hx0⟩ := hH a k
      exact ⟨mask i k * wh * x, by rw [hwh, hx]; rfl,
        mul_nonneg (mul_nonneg (hmnn i k) hwh0.le) hx0.le⟩
    · obtain ⟨k0, hk0⟩ := hrow i
      obtain ⟨wh, hwh, hwh0⟩ := hWH k0
      obtain ⟨x, hx, hx0⟩ := hH a k0
      exact ⟨k0, mask i k0 * wh * x, by rw [hwh, hx]; rfl,
        mul_pos (mul_pos hk0 hwh0) hx0⟩
  have hnum : ∃ s, npSum (fun k =>
      npMul (.fin (maskedX i k)) (H a k)) = .fin s := by
    apply npSum_fin
    intro k
    obtain ⟨x, hx, _⟩ := hH a k
    exact ⟨maskedX i k * x, by rw [hx]; rfl⟩
  obtain ⟨d, hd, hd0⟩ := hden
  obtain ⟨s, hs⟩ := hnum
  obtain ⟨w, hw, hw0⟩ := hW i a
  refine ⟨max (w * (s / d)) nnmfEps, ?_, le_max_right _ _,
    lt_of_lt_of_le (by norm_num [nnmfEps]) (le_max_right _ _)⟩
  unfold nnmfMultUpdateW
  rw [hs, hd, hw, npDiv_fin_of_pos hd0]
  rfl

/-- The `H` update keeps every entry finite and lifts it to at least
`eps`, provided the mask is non-negative with a positive entry in every
column and the current factors are finite and positive. -/
lemma nnmfMultUpdateH_floored {u n : ℕ}
    (maskedX mask : Fin u → Fin n → ℚ)
    (hmnn : ∀ i k, 0 ≤ mask i k)
    (hcol : ∀ b, ∃ k, 0 < mask k b)
    (W : Fin u → Fin n → NpValue) (H : Fin n → Fin n → NpValue)
    (hW : ∀ i a, ∃ q, W i a = .fin q ∧ 0 < q)
    (hH : ∀ a b, ∃ q, H a b = .fin q ∧ 0 < q) :
    ∀ a b, ∃ q, nnmfMultUpdateH maskedX mask W H a b = .fin q
      ∧ nnmfEps ≤ q ∧ 0 < q := by
  intro a b
  have hWH : ∀ k : Fin u,
      ∃ q, npSum (fun l => npMul (W k l) (H l b)) = .fin q ∧ 0 < q := by
    intro k
    apply npSum_fin_pos
    · intro l
      obtain ⟨w, hw, hw0⟩ := hW k l
      obtain ⟨x, hx, hx0⟩ := hH l b
      exact ⟨w * x, by rw [hw, hx]; rfl, (mul_pos hw0 hx0).le⟩
    · obtain ⟨w, hw, hw0⟩ := hW k a
      obtain ⟨x, hx, hx0⟩ := hH a b
      exact ⟨a, w * x, by rw [hw, hx]; rfl, mul_pos hw0 hx0⟩
  have hden : ∃ d, npSum (fun k =>
      npMul (W k a)
        (npMul (.fin (mask k b)) (npSum fun l => npMul (W k l) (H l b))))
      = .fin d ∧ 0 < d := by
    apply npSum_fin_pos
    · intro k
      obtain ⟨w, hw, hw0⟩ := hW k a
      obtain ⟨wh, hwh, hwh0⟩ := hWH k
      exact ⟨w * (mask k b * wh), by rw [hw, hwh]; rfl,
        mul_nonneg hw0.le (mul_nonneg (hmnn k b) hwh0.le)⟩
    · obtain ⟨k0, hk0⟩ := hcol b
      obtain ⟨w, hw, hw0⟩ := hW k0 a
      obtain ⟨wh, hwh, hwh0⟩ := hWH k0
      exact ⟨k0, w * (mask k0 b * wh), by rw [hw, hwh]; rfl,
        mul_pos hw0 (mul_pos hk0 hwh0)⟩
  have hnum : ∃ s, npSum (fun k =>
      npMul (W k a) (.fin (maskedX k b))) = .fin s := by
    apply npSum_fin
    intro k
    obtain ⟨w, hw, _⟩ := hW k a
    exact ⟨w * maskedX k b, by rw [hw]; rfl⟩
  obtain ⟨d, hd, hd0⟩ := hden
  obtain ⟨s, hs⟩ := hnum
  obtain ⟨x, hx, hx0⟩ := hH a b
  refine ⟨max (x * (s / d)) nnmfEps, ?_, le_max_right _ _,
    lt_of_lt_of_le (by norm_num [nnmfEps]) (le_max_right _ _)⟩
  unfold nnmfMultUpdateH
  rw [hs, hd, hx, npDiv_fin_of_pos hd0]
  rfl

/-- One full iteration preserves finite positivity and floors every
entry of both factors at `eps`. -/
lemma nnmfMultIter_floored {u n : ℕ}
    (maskedX mask : Fin u → Fin n → ℚ)
    (hmnn : ∀ i k, 0 ≤ mask i k)
    (hrow : ∀ i, ∃ k, 0 < mask i k)
    (hcol : ∀ b, ∃ k, 0 < mask k b)
    (W : Fin u → Fin n → NpValue) (H : Fin n → Fin n → NpValue)
    (hW : ∀ i a, ∃ q, W i a = .fin q ∧ 0 < q)
    (hH : ∀ a b, ∃ q, H a b = .fin q ∧ 0 < q) :
    (∀ i a, ∃ q, (nnmfMultIter maskedX mask (W, H)).1 i a = .fin q
        ∧ nnmfEps ≤ q ∧ 0 < q) ∧
      (∀ a b, ∃ q, (nnmfMultIter maskedX mask (W, H)).2 a b = .fin q
        ∧ nnmfEps ≤ q ∧ 0 < q) := by
  have hW1 := nnmfMultUpdateW_floored maskedX mask hmnn hrow W H hW hH
  have hW1pos : ∀ i a, ∃ q,
      nnmfMultUpdateW maskedX mask W H i a = .fin q ∧ 0 < q :=
    fun i a => (hW1 i a).imp fun q hq => ⟨hq.1, hq.2.2⟩
  have hH1 := nnmfMultUpdateH_floored maskedX mask hmnn hcol
    (nnmfMultUpdateW maskedX mask W H) H hW1pos hH
  exact ⟨hW1, hH1⟩

/-- C1: in `NNMF_mult.fit`, whenever the current residual is below
`error_limit`, the loop's continuation condition is `true` — independently
of the iteration counter and of the cap.  A residual below its tolerance
therefore keeps the loop running (even past `max_iterations`) instead of
stopping it, contradicting the claim that the loop stops at the cap or
earlier as soon as a residual drops below its tolerance. -/

theorem nnmf_mult_low_residual_forces_continuation
    (ctr maxIterations : ℕ) (currentResid errorLimit fitResidual fitErrorLimit : ℚ)
    (h : currentResid < errorLimit) :
    nnmfMultContinue ctr maxIterations currentResid errorLimit
      fitResidual fitErrorLimit = true := by
  unfold nnmfMultContinue
  simp [h]

/-- Witness for C1: at iteration 101 with `max_iterations = 100` and both
residuals at `0 < 10⁻⁶`, the loop still continues. -/

theorem nnmf_mult_low_residual_forces_continuation_witness :
    (0 : ℚ) < 1 / 1000000 ∧
      nnmfMultContinue 101 100 0 (1 / 1000000) 0 (1 / 1000000) = true :=
  ⟨by norm_num,
    nnmf_mult_low_residual_forces_continuation 101 100 0 (1 / 1000000) 0
      (1 / 1000000) (by norm_num)⟩

/-- C3: for a fraction `0 < f ≤ 1`, every row of the mask produced by
`split_train_test` has exactly `round(f * cols)` cells set to `True`
(`np.round` half-to-even, which is also a valid item count, i.e. at most
`cols`), and the per-row `True` count plus `False` count is the item
count. -/

theorem split_train_test_row_counts
    (rows cols : ℕ) (f : ℚ) (hf0 : 0 < f) (hf1 : f ≤ 1)
    (choose : Fin rows → Finset (Fin cols))
    (hc : ∀ i, (choose i).card = nTrainItems cols f) (i : Fin rows) :
    ((Finset.univ.filter fun j => splitMask rows cols choose i j = true).card
        = nTrainItems cols f) ∧
      ((nTrainItems cols f : ℤ) = roundHalfEven (f * cols)) ∧
      nTrainItems cols f ≤ cols ∧
      ((Finset.univ.filter fun j => splitMask rows cols choose i j = true).card
          + (Finset.univ.filter fun j =>
              splitMask rows cols choose i j = false).card
          = cols) := by
  have hfilter :
      (Finset.univ.filter fun j => splitMask rows cols choose i j = true)
        = choose i := by
    ext j
    simp [splitMask]
  refine ⟨by rw [hfilter]; exact hc i, ?_, nTrainItems_le_cols hf1, ?_⟩
  · unfold nTrainItems
    have hq : (0 : ℚ) ≤ f * cols := by positivity
    have := roundHalfEven_nonneg hq
    omega
  · have hneg :
        (Finset.univ.filter fun j => splitMask rows cols choose i j = false)
          = (Finset.univ.filter fun j =>
              ¬ (splitMask rows cols choose i j = true)) := by
      ext j
      simp
    rw [hneg, Finset.filter_card_add_filter_neg_card_eq_card]
    simp

/-- Witness for C3: a 1×4 matrix with `f = 1/2` and the row draw `{0, 1}`:
the row has `round(1/2 · 4) = 2` `True` cells and `2 + 2 = 4`. -/

theorem split_train_test_row_counts_witness :
    (0 : ℚ) < 1 / 2 ∧ (1 : ℚ) / 2 ≤ 1 ∧
      (∀ i : Fin 1,
        ((fun (_ : Fin 1) => ({0, 1} : Finset (Fin 4))) i).card
          = nTrainItems 4 (1 / 2)) ∧
      (((Finset.univ.filter fun j =>
            splitMask 1 4 (fun _ => {0, 1}) 0 j = true).card
          = nTrainItems 4 (1 / 2)) ∧
        ((nTrainItems 4 (1 / 2) : ℤ) = roundHalfEven (1 / 2 * 4)) ∧
        nTrainItems 4 (1 / 2) ≤ 4 ∧
        ((Finset.univ.filter fun j =>
              splitMask 1 4 (fun _ => {0, 1}) 0 j = true).card
            + (Finset.univ.filter fun j =>
                splitMask 1 4 (fun _ => {0, 1}) 0 j = false).card
            = 4)) :=
  ⟨by norm_num, by norm_num, by intro i; rw [nTrainItems_four_half]; show ({0, 1} : Finset (Fin 4)).card = 2; decide,
    split_train_test_row_counts 1 4 (1 / 2) (by norm_num) (by norm_num)
      (fun _ => {0, 1}) (by intro i; rw [nTrainItems_four_half]; show ({0, 1} : Finset (Fin 4)).card = 2; decide) 0⟩

/-- Counterexample to C7: a 1×1 matrix whose single cell is missing, split
with `f = 1` (so the draw is forced to contain the lone column): the
produced mask marks the missing cell `True`, violating the invariant. -/

theorem split_mask_invariant_cex :
    (∀ i : Fin 1, ((fun (_ : Fin 1) => ({0} : Finset (Fin 1))) i).card
        = nTrainItems 1 (1 : ℚ)) ∧
      splitMask 1 1 (fun _ => {0}) 0 0 = true ∧
      (fun (_ : Fin 1) (_ : Fin 1) => (none : Option ℚ)) 0 0 = none ∧
      ¬ maskInvariant (fun _ _ => (none : Option ℚ))
          (splitMask 1 1 fun _ => {0}) := by
  refine ⟨by intro i; rw [nTrainItems_one_one]; show ({0} : Finset (Fin 1)).card = 1; decide, by decide, rfl,
    fun h => ?_⟩
  have := h 0 0 (by decide)
  simp at this

/-- C7 amended: on matrices with no missing cells every mask the split
engine produces satisfies the invariant, and `create_train_test_mask`
rejects matrices that already contain missing cells with an error rather
than producing a mask; `split_train_test` itself (see the counterexample)
can mark a missing cell `True`. -/

theorem masks_respect_missing_amended {m c : ℕ}
    (data : Fin m → Fin c → Option ℚ) (choose : Fin m → Finset (Fin c))
    (hdense : ∀ i j, (data i j).isSome = true) :
    maskInvariant data (splitMask m c choose) ∧
      ∀ (m' c' : ℕ) (data' : Fin m' → Fin c' → Option ℚ)
        (choose' : Fin m' → Finset (Fin c')),
        (∃ i j, data' i j = none) →
        create_train_test_mask data' choose'
          = .error "data already contains NaNs and further masking is ambiguous!" := by
  constructor
  · intro i j _
    exact hdense i j
  · intro m' c' data' choose' hmiss
    unfold create_train_test_mask
    rw [if_pos hmiss]

/-- C4: with the `all` partition, the pairs of (actual, predicted) values
the metric compares — and hence the MSE — are exactly those obtained by
pairing every cell of the (possibly masked, possibly dilated) data with
the prediction at the same coordinates and dropping the cells where either
side is missing. -/

theorem get_mse_all_partition_cells {m n : ℕ} (isMask isMaskDilated : Bool)
    (data : Fin m → Fin n → Option ℚ) (trainMask : Fin m → Fin n → Bool)
    (dilatedData : Fin m → Fin n → Option ℚ)
    (dilatedMask : Fin m → Fin n → Bool)
    (pred : Fin m → Fin n → Option ℚ)
    (hdm : isMask = true → isMaskDilated = true →
      ∀ i j, dilatedMask i j = (dilatedData i j).isSome) :
    (comparedPairs (retrievePredictionsAll isMask isMaskDilated data
          trainMask dilatedData dilatedMask pred)
        = comparedPairs ((cellsList m n).map fun p =>
            (specAllData isMask isMaskDilated data trainMask dilatedData
              p.1 p.2, pred p.1 p.2))) ∧
      get_mse (retrievePredictionsAll isMask isMaskDilated data trainMask
          dilatedData dilatedMask pred)
        = get_mse ((cellsList m n).map fun p =>
            (specAllData isMask isMaskDilated data trainMask dilatedData
              p.1 p.2, pred p.1 p.2)) := by
  have hmain : comparedPairs (retrievePredictionsAll isMask isMaskDilated
      data trainMask dilatedData dilatedMask pred)
      = comparedPairs ((cellsList m n).map fun p =>
          (specAllData isMask isMaskDilated data trainMask dilatedData
            p.1 p.2, pred p.1 p.2)) := by
    unfold retrievePredictionsAll specAllData
    cases isMask with
    | false => simp
    | true =>
        cases isMaskDilated with
        | false =>
            simp only [if_true]
            exact comparedPairs_filterMap_mask data trainMask pred
              (cellsList m n)
        | true =>
            simp only [if_true]
            exact comparedPairs_filterMap_dilated dilatedData dilatedMask
              pred (cellsList m n) (hdm rfl rfl)
  exact ⟨hmain, get_mse_eq_of_comparedPairs hmain⟩

/-- Witness for C4: a dilated-mask 1×2 model whose dilated mask matches the
dilated data's missing pattern. -/

theorem get_mse_all_partition_cells_witness :
    (∀ i : Fin 1, ∀ j : Fin 2,
      (fun (_ : Fin 1) (j : Fin 2) => decide (j = 0)) i j
        = ((fun (_ : Fin 1) (j : Fin 2) =>
            if j = 0 then some (2 : ℚ) else none) i j).isSome) ∧
      ((comparedPairs (retrievePredictionsAll (m := 1) (n := 2) true true
            (fun _ j => if j = 0 then some (1 : ℚ) else none)
            (fun _ _ => true)
            (fun _ j => if j = 0 then some (2 : ℚ) else none)
            (fun _ j => decide (j = 0))
            (fun _ j => if j = 0 then some (3 : ℚ) else some 4))
          = comparedPairs ((cellsList 1 2).map fun p =>
              (specAllData (m := 1) (n := 2) true true
                (fun _ j => if j = 0 then some (1 : ℚ) else none)
                (fun _ _ => true)
                (fun _ j => if j = 0 then some (2 : ℚ) else none)
                p.1 p.2,
                (fun (_ : Fin 1) (j : Fin 2) =>
                  if j = 0 then some (3 : ℚ) else some 4) p.1 p.2))) ∧
        get_mse (retrievePredictionsAll (m := 1) (n := 2) true true
            (fun _ j => if j = 0 then some (1 : ℚ) else none)
            (fun _ _ => true)
            (fun _ j => if j = 0 then some (2 : ℚ) else none)
            (fun _ j => decide (j = 0))
            (fun _ j => if j = 0 then some (3 : ℚ) else some 4))
          = get_mse ((cellsList 1 2).map fun p =>
              (specAllData (m := 1) (n := 2) true true
                (fun _ j => if j = 0 then some (1 : ℚ) else none)
                (fun _ _ => true)
                (fun _ j => if j = 0 then some (2 : ℚ) else none)
                p.1 p.2,
                (fun (_ : Fin 1) (j : Fin 2) =>
                  if j = 0 then some (3 : ℚ) else some 4) p.1 p.2))) :=
  ⟨by decide,
    get_mse_all_partition_cells (m := 1) (n := 2) true true
      (fun (_ : Fin 1) (j : Fin 2) => if j = 0 then some (1 : ℚ) else none)
      (fun (_ : Fin 1) (_ : Fin 2) => true)
      (fun (_ : Fin 1) (j : Fin 2) => if j = 0 then some (2 : ℚ) else none)
      (fun (_ : Fin 1) (j : Fin 2) => decide (j = 0))
      (fun (_ : Fin 1) (j : Fin 2) => if j = 0 then some (3 : ℚ) else some 4)
      (fun _ _ => by decide)⟩

/-- Counterexample to C5: with the all-`False` mask row that
`split_train_test` produces for `n_train_items = 0` (so both the masked
data and the mask are zero matrices) and the factor entries at 1, the
first iteration's update divides `0.0` by `0.0`, giving `nan`, and
`np.maximum(nan, eps) = nan`: the `W` and `H` entries after the iteration
are NaN, not values `≥ eps`. -/
theorem nnmf_mult_factors_floored_cex :
    (nnmfMultIterate (u := 1) (n := 1) (fun _ _ => 0) (fun _ _ => 0) 1
        (fun _ _ => .fin 1, fun _ _ => .fin 1)).1 0 0 = NpValue.nan ∧
      (nnmfMultIterate (u := 1) (n := 1) (fun _ _ => 0) (fun _ _ => 0) 1
        (fun _ _ => .fin 1, fun _ _ => .fin 1)).2 0 0 = NpValue.nan ∧
      ¬ ∃ q, (nnmfMultIterate (u := 1) (n := 1) (fun _ _ => 0)
          (fun _ _ => 0) 1
          (fun _ _ => .fin 1, fun _ _ => .fin 1)).1 0 0
        = NpValue.fin q ∧ nnmfEps ≤ q := by
  have h1 : (nnmfMultIterate (u := 1) (n := 1) (fun _ _ => 0) (fun _ _ => 0) 1
      (fun _ _ => .fin 1, fun _ _ => .fin 1)).1 0 0 = NpValue.nan := by
    norm_num [nnmfMultIterate, nnmfMultIter, nnmfMultUpdateW, nnmfMultUpdateH,
      npSum, npAdd, npMul, npDiv, npMax, List.finRange_succ_eq_map,
      List.finRange_zero]
  have h2 : (nnmfMultIterate (u := 1) (n := 1) (fun _ _ => 0) (fun _ _ => 0) 1
      (fun _ _ => .fin 1, fun _ _ => .fin 1)).2 0 0 = NpValue.nan := by
    norm_num [nnmfMultIterate, nnmfMultIter, nnmfMultUpdateW, nnmfMultUpdateH,
      npSum, npAdd, npMul, npDiv, npMax, List.finRange_succ_eq_map,
      List.finRange_zero]
  refine ⟨h1, h2, ?_⟩
  rintro ⟨q, hq, _⟩
  rw [h1] at hq
  exact NpValue.noConfusion hq

/-- C5 amended: provided every row and every column of the mask has at
least one observed cell (the mask is non-negative, boolean in the
program) and the initial factor entries are finite and strictly positive
(as the random initialization gives almost surely), after every
iteration of the `NNMF_mult.fit` update loop every entry of `W` and of
`H` is a finite value at least the floor `eps = 1e-5`, hence strictly
positive.  When a mask row or column is entirely unobserved, the update
instead divides 0 by 0 and the entries become NaN (see the
counterexample). -/
theorem nnmf_mult_factors_floored_amended {u n : ℕ}
    (maskedX mask : Fin u → Fin n → ℚ)
    (hmnn : ∀ i k, 0 ≤ mask i k)
    (hrow : ∀ i, ∃ k, 0 < mask i k)
    (hcol : ∀ b, ∃ k, 0 < mask k b)
    (W0 : Fin u → Fin n → NpValue) (H0 : Fin n → Fin n → NpValue)
    (hW0 : ∀ i a, ∃ q, W0 i a = .fin q ∧ 0 < q)
    (hH0 : ∀ a b, ∃ q, H0 a b = .fin q ∧ 0 < q)
    (k : ℕ) :
    (∀ i a, ∃ q, (nnmfMultIterate maskedX mask (k + 1) (W0, H0)).1 i a
        = .fin q ∧ nnmfEps ≤ q ∧ 0 < q) ∧
      (∀ a b, ∃ q, (nnmfMultIterate maskedX mask (k + 1) (W0, H0)).2 a b
        = .fin q ∧ nnmfEps ≤ q ∧ 0 < q) := by
  induction k with
  | zero =>
      exact nnmfMultIter_floored maskedX mask hmnn hrow hcol W0 H0 hW0 hH0
  | succ k ih =>
      have hW : ∀ i a, ∃ q,
          (nnmfMultIterate maskedX mask (k + 1) (W0, H0)).1 i a
            = .fin q ∧ 0 < q :=
        fun i a => (ih.1 i a).imp fun q hq => ⟨hq.1, hq.2.2⟩
      have hH : ∀ a b, ∃ q,
          (nnmfMultIterate maskedX mask (k + 1) (W0, H0)).2 a b
            = .fin q ∧ 0 < q :=
        fun a b => (ih.2 a b).imp fun q hq => ⟨hq.1, hq.2.2⟩
      exact nnmfMultIter_floored maskedX mask hmnn hrow hcol
        (nnmfMultIterate maskedX mask (k + 1) (W0, H0)).1
        (nnmfMultIterate maskedX mask (k + 1) (W0, H0)).2 hW hH

/-- Witness for C5's amended statement: a fully observed 1×1 matrix with
unit factors. -/
theorem nnmf_mult_factors_floored_amended_witness :
    (∀ i k : Fin 1, (0 : ℚ) ≤ (fun (_ : Fin 1) (_ : Fin 1) => (1 : ℚ)) i k) ∧
      (∀ i : Fin 1, ∃ k : Fin 1,
        (0 : ℚ) < (fun (_ : Fin 1) (_ : Fin 1) => (1 : ℚ)) i k) ∧
      (∀ i a : Fin 1, ∃ q,
        (fun (_ : Fin 1) (_ : Fin 1) => NpValue.fin 1) i a
          = NpValue.fin q ∧ 0 < q) ∧
      ((∀ i a : Fin 1, ∃ q,
          (nnmfMultIterate (u := 1) (n := 1) (fun _ _ => (1 : ℚ))
            (fun _ _ => (1 : ℚ)) 1
            (fun _ _ => .fin 1, fun _ _ => .fin 1)).1 i a
            = NpValue.fin q ∧ nnmfEps ≤ q ∧ 0 < q) ∧
        (∀ a b : Fin 1, ∃ q,
          (nnmfMultIterate (u := 1) (n := 1) (fun _ _ => (1 : ℚ))
            (fun _ _ => (1 : ℚ)) 1
            (fun _ _ => .fin 1, fun _ _ => .fin 1)).2 a b
            = NpValue.fin q ∧ nnmfEps ≤ q ∧ 0 < q)) :=
  ⟨fun _ _ => by norm_num, fun _ => ⟨0, by norm_num⟩,
    fun _ _ => ⟨1, rfl, by norm_num⟩,
    nnmf_mult_factors_floored_amended (u := 1) (n := 1)
      (fun _ _ => 1) (fun _ _ => 1)
      (fun _ _ => by norm_num) (fun _ => ⟨0, by norm_num⟩)
      (fun _ => ⟨0, by norm_num⟩)
      (fun _ _ => .fin 1) (fun _ _ => .fin 1)
      (fun _ _ => ⟨1, rfl, by norm_num⟩)
      (fun _ _ => ⟨1, rfl, by norm_num⟩) 0⟩

/-- C6: the dilation transform returns a row of the same length whose
entry at each position `k` is the windowed value sum divided by the
coverage count whenever the coverage is nonzero (equivalently `≥ 1`), and
missing where the coverage is zero; the window is the forward one — an
observation at index `i` reaches exactly the positions `i ≤ k < i +
nSamples`. -/

theorem conv_ts_mean_overlap_forward_window (subRating : List (Option ℚ))
    (nSamples k : ℕ) (hk : k < subRating.length) :
    (conv_ts_mean_overlap subRating nSamples).length = subRating.length ∧
      (conv_ts_mean_overlap subRating nSamples).getD k none
        = (if coverageCount subRating nSamples k = 0 then none
            else some (windowValueSum subRating nSamples k
              / coverageCount subRating nSamples k)) := by
  constructor
  · simp [conv_ts_mean_overlap]
  · unfold conv_ts_mean_overlap
    simp only
    rw [getD_map_range, if_pos hk]
    rw [binConv_eq_coverage subRating nSamples k hk,
      subConv_eq_windowValue subRating nSamples k hk]
    rcases coverageCount_dichotomy subRating nSamples k with h | h
    · rw [h]
      norm_num
    · rw [if_pos h, if_neg (by intro h0; rw [h0] at h; norm_num at h)]

/-- Witness for C6: the row `[1, NaN, 2]` with window width 2 at position
1: coverage 1 (only the observation at index 0 reaches forward to index
1), value sum 1, output `1 / 1`. -/

theorem conv_ts_mean_overlap_forward_window_witness :
    1 < ([some 1, none, some (2 : ℚ)] : List (Option ℚ)).length ∧
      ((conv_ts_mean_overlap [some 1, none, some 2] 2).length
          = ([some 1, none, some (2 : ℚ)] : List (Option ℚ)).length ∧
        (conv_ts_mean_overlap [some 1, none, some 2] 2).getD 1 none
          = (if coverageCount [some 1, none, some 2] 2 1 = 0 then none
              else some (windowValueSum [some 1, none, some 2] 2 1
                / coverageCount [some 1, none, some 2] 2 1))) :=
  ⟨by norm_num,
    conv_ts_mean_overlap_forward_window [some 1, none, some 2] 2 1
      (by norm_num)⟩

/-- C2: evaluation of `NNMF_sgd.fit`'s loop at a failing input.  On the
1×1 rating matrix `[[2]]` (global bias 2, learning rate 1/10, no
regularization, initial user/item vectors 1, biases 0, `max_norm = 2`,
`tol = 1/4`, 2 epochs) the per-epoch normalized errors are `1/2` and
`619/2000`.  The code's convergence delta after epoch 2 is the raw
normalized error `619/2000` — because `last_e` is never updated inside
the loop — which is not below `tol`, so training does not stop early;
the claim's delta, the difference `|619/2000 - 1/2|` from the previous
epoch's normalized error, is below `tol` and would have stopped
training. -/

theorem nnmf_sgd_delta_ignores_previous_epoch :
    (sgdFit (m := 1) (n := 1) (f := 1) ⟨1 / 10, 0, 0, 0, 0⟩ 2 (1 / 4) 2
          (fun _ _ => 2) (fun _ => [(0, 0)]) 2
          ⟨fun _ => 0, fun _ => 0, fun _ _ => 1, fun _ _ => 1⟩).hist
        = [1 / 2, 619 / 2000] ∧
      (sgdFit (m := 1) (n := 1) (f := 1) ⟨1 / 10, 0, 0, 0, 0⟩ 2 (1 / 4) 2
          (fun _ _ => 2) (fun _ => [(0, 0)]) 2
          ⟨fun _ => 0, fun _ => 0, fun _ _ => 1, fun _ _ => 1⟩).converged
        = false ∧
      (sgdFit (m := 1) (n := 1) (f := 1) ⟨1 / 10, 0, 0, 0, 0⟩ 2 (1 / 4) 2
          (fun _ _ => 2) (fun _ => [(0, 0)]) 2
          ⟨fun _ => 0, fun _ => 0, fun _ _ => 1, fun _ _ => 1⟩).delta
        = some (619 / 2000) ∧
      ¬ ((619 : ℚ) / 2000 < 1 / 4) ∧
      |(619 : ℚ) / 2000 - 1 / 2| < 1 / 4 := by
  refine ⟨?_, ?_, ?_, by norm_num, by rw [abs_sub_comm]; rw [abs_of_nonneg (by norm_num)]; norm_num⟩ <;>
    norm_num [sgdFit, sgdLoopGo, sgdEpochStep, sgdObsStep,
      predictSingle, Fin.sum_univ_one, Function.update, abs]

/-- Counterexample to C8: `NNMF_sgd.predict` on an unfit model does not
fail with the `NotFitted` lifecycle error — it dies on the missing
`user_vecs` attribute (assigned only inside `fit`) instead. -/

theorem nnmf_sgd_predict_unfit_cex :
    nnmfSgdPredict (m := 1) (n := 1) (f := 1) false
        ⟨none, none, none, none, none⟩
      = Except.error (CFError.attributeMissing "user_vecs") ∧
      ¬ (nnmfSgdPredict (m := 1) (n := 1) (f := 1) false
          ⟨none, none, none, none, none⟩
        = Except.error CFError.notFitted) := by
  refine ⟨rfl, fun h => ?_⟩
  rw [show nnmfSgdPredict (m := 1) (n := 1) (f := 1) false
      ⟨none, none, none, none, none⟩
      = Except.error (CFError.attributeMissing "user_vecs") from rfl] at h
  injection h with h2
  exact CFError.noConfusion h2

/-- C8 amended: calling `predict()` on an unfit `Mean`, `KNN` or
`NNMF_mult` model fails with the `NotFitted` lifecycle error;
`NNMF_sgd.predict` performs no lifecycle check and instead fails on the
missing `user_vecs` attribute. -/

theorem predict_requires_fit_amended {m n u f : ℕ}
    (mean : Fin n → Option ℚ) (data : Fin m → Fin n → Option ℚ)
    (sortedOthers : Fin m → List (Fin m × Option ℚ)) (k : Option ℕ)
    (W : Fin u → Fin n → ℚ) (H : Fin n → Fin n → ℚ)
    (gb : Option ℚ) (ub : Option (Fin m → ℚ)) (ib : Option (Fin n → ℚ))
    (iv : Option (Fin n → Fin f → ℚ)) :
    meanPredict (m := m) false mean = Except.error CFError.notFitted ∧
      knnPredict false data sortedOthers k
        = Except.error CFError.notFitted ∧
      nnmfMultPredict false W H = Except.error CFError.notFitted ∧
      nnmfSgdPredict false (⟨gb, ub, ib, none, iv⟩ : SgdModelAttrs m n f)
        = Except.error (CFError.attributeMissing "user_vecs") :=
  ⟨rfl, rfl, rfl, rfl⟩

/-- C9: for a similarity row sorted descending with NaN entries last and
at least one non-NaN entry, and `k` either `None` or positive, the slice
`[0:k]` followed by NaN-removal used by `KNN.predict` equals the top-`k`
(all, if `k` is `None`) non-NaN neighbours, the neighbour count is
positive, and the predicted cell is the dot product of those
similarities with the neighbours' full unmasked ratings divided by the
neighbour count. -/

theorem knn_predict_cell_formula {m n : ℕ}
    (data : Fin m → Fin n → Option ℚ)
    (sortedOthers : List (Fin m × Option ℚ)) (k : Option ℕ) (item : Fin n)
    (hsorted : sortedOthers
        = sortedOthers.filter (fun p => p.2.isSome)
          ++ sortedOthers.filter (fun p => p.2.isNone))
    (hdesc : (sortedOthers.filterMap fun p => p.2).Chain' fun a b => b ≤ a)
    (hk : ∀ kk, k = some kk → 0 < kk)
    (hex : ∃ p ∈ sortedOthers, p.2.isSome = true) :
    knnTopSubjects sortedOthers k = specTopNeighbors sortedOthers k ∧
      0 < (specTopNeighbors sortedOthers k).length ∧
      knnPredictCell data sortedOthers k item
        = (nanDot ((specTopNeighbors sortedOthers k).map
            fun p => (p.2, data p.1 item))).map
              fun s => s / ((specTopNeighbors sortedOthers k).length : ℚ) := by
  have htop : knnTopSubjects sortedOthers k
      = specTopNeighbors sortedOthers k := by
    unfold knnTopSubjects specTopNeighbors
    cases k with
    | none => rfl
    | some kk =>
        simp only
        rw [hsorted]
        exact take_filterMap_somes_prefix _ _ kk
          (fun p hp => (List.mem_filter.mp hp).2)
          (fun p hp =>
            Option.isNone_iff_eq_none.mp (List.mem_filter.mp hp).2)
  have hpos : 0 < (specTopNeighbors sortedOthers k).length := by
    obtain ⟨p, hp, hps⟩ := hex
    obtain ⟨v, hv⟩ := Option.isSome_iff_exists.mp hps
    have hmem : (p.1, v) ∈ sortedOthers.filterMap
        (fun p => p.2.map fun v => (p.1, v)) :=
      List.mem_filterMap.mpr ⟨p, hp, by rw [hv]; rfl⟩
    have hlen : 0 < (sortedOthers.filterMap
        (fun p => p.2.map fun v => (p.1, v))).length :=
      List.length_pos.mpr (List.ne_nil_of_mem hmem)
    unfold specTopNeighbors
    cases k with
    | none => exact hlen
    | some kk =>
        simp only [List.length_take]
        exact lt_min (hk kk rfl) hlen
  refine ⟨htop, hpos, ?_⟩
  unfold knnPredictCell
  simp only [htop]
  unfold nanDivCount
  rw [if_neg (Nat.pos_iff_ne_zero.mp hpos)]

/-- Witness for C9: two subjects, the similarity row of subject 0 is
`[(1, 1/2)]`, `k = 1`, dense ratings equal to 3. -/

theorem knn_predict_cell_formula_witness :
    (([((1 : Fin 2), some ((1 : ℚ) / 2))] : List (Fin 2 × Option ℚ))
        = ([((1 : Fin 2), some ((1 : ℚ) / 2))] :
            List (Fin 2 × Option ℚ)).filter (fun p => p.2.isSome)
          ++ ([((1 : Fin 2), some ((1 : ℚ) / 2))] :
            List (Fin 2 × Option ℚ)).filter (fun p => p.2.isNone)) ∧
      (∀ kk, (some 1 : Option ℕ) = some kk → 0 < kk) ∧
      (∃ p ∈ ([((1 : Fin 2), some ((1 : ℚ) / 2))] :
          List (Fin 2 × Option ℚ)), p.2.isSome = true) ∧
      (knnTopSubjects [((1 : Fin 2), some ((1 : ℚ) / 2))] (some 1)
          = specTopNeighbors [((1 : Fin 2), some ((1 : ℚ) / 2))] (some 1) ∧
        0 < (specTopNeighbors [((1 : Fin 2), some ((1 : ℚ) / 2))]
            (some 1)).length ∧
        knnPredictCell (fun (_ : Fin 2) (_ : Fin 1) => some (3 : ℚ))
            [((1 : Fin 2), some ((1 : ℚ) / 2))] (some 1) 0
          = (nanDot ((specTopNeighbors
                [((1 : Fin 2), some ((1 : ℚ) / 2))] (some 1)).map
              fun p => (p.2,
                (fun (_ : Fin 2) (_ : Fin 1) => some (3 : ℚ)) p.1 0))).map
                fun s => s / ((specTopNeighbors
                  [((1 : Fin 2), some ((1 : ℚ) / 2))] (some 1)).length : ℚ)) :=
  ⟨rfl, fun kk h => by cases h; norm_num,
    ⟨((1 : Fin 2), some ((1 : ℚ) / 2)), by simp, rfl⟩,
    knn_predict_cell_formula (fun _ _ => some 3)
      [((1 : Fin 2), some ((1 : ℚ) / 2))] (some 1) 0 rfl
      (by simp)
      (fun kk h => by cases h; norm_num)
      ⟨((1 : Fin 2), some ((1 : ℚ) / 2)), by simp, rfl⟩⟩

/-- Counterexample to C10: a fit 2-subject KNN model in which every
similarity is NaN, so every subject's viable-neighbour set is empty:
`predict` succeeds and writes NaN into the cells — no call of
`KNN.predict` can ever produce a `NoViableNeighbors` error, because the
code raises no such error. -/

theorem knn_no_viable_neighbors_cex :
    (∃ P, knnPredict (m := 2) (n := 1) true (fun _ _ => some (1 : ℚ))
        (fun i => [(if i = 0 then 1 else 0, none)]) none = Except.ok P
      ∧ P 0 0 = none) ∧
      ¬ ∃ (a b : ℕ) (isFit : Bool) (data : Fin a → Fin b → Option ℚ)
          (sortedOthers : Fin a → List (Fin a × Option ℚ)) (k : Option ℕ),
          knnPredict isFit data sortedOthers k
            = Except.error CFError.noViableNeighbors := by
  constructor
  · exact ⟨_, rfl, rfl⟩
  · rintro ⟨a, b, isFit, dataA, so, k, h⟩
    unfold knnPredict at h
    cases isFit
    · rw [if_neg (by simp)] at h
      injection h with h2
      exact CFError.noConfusion h2
    · rw [if_pos rfl] at h
      exact Except.noConfusion h

/-- C10 amended: for a fit KNN model and a subject whose set of viable
neighbours (other subjects with a non-NaN similarity) is empty,
`KNN.predict` succeeds and silently writes NaN (`0.0 / 0`) into that
subject's cells instead of raising any error. -/

theorem knn_empty_neighbors_silent_nan {m n : ℕ}
    (data : Fin m → Fin n → Option ℚ)
    (sortedOthers : Fin m → List (Fin m × Option ℚ)) (k : Option ℕ)
    (i : Fin m) (hempty : ∀ p ∈ sortedOthers i, p.2 = none) (j : Fin n) :
    ∃ P, knnPredict true data sortedOthers k = Except.ok P
      ∧ P i j = none := by
  refine ⟨_, rfl, ?_⟩
  show knnPredictCell data (sortedOthers i) k j = none
  have htop : knnTopSubjects (sortedOthers i) k = [] := by
    unfold knnTopSubjects
    cases k with
    | none => exact filterMap_simPairs_nil _ hempty
    | some kk =>
        exact filterMap_simPairs_nil _
          (fun p hp => hempty p (List.take_subset _ _ hp))
  simp only [knnPredictCell, htop]
  rfl

/-- Witness for C10's amended statement: the 2-subject all-NaN-similarity
model with `k = 3`. -/

theorem knn_empty_neighbors_silent_nan_witness :
    (∀ p ∈ ((fun (i : Fin 2) =>
        [((if i = 0 then 1 else 0 : Fin 2), (none : Option ℚ))]) 0),
      p.2 = none) ∧
      ∃ P, knnPredict (m := 2) (n := 1) true (fun _ _ => some (2 : ℚ))
          (fun i => [(if i = 0 then 1 else 0, none)]) (some 3)
        = Except.ok P ∧ P 0 0 = none :=
  ⟨by decide,
    knn_empty_neighbors_silent_nan (fun _ _ => some 2)
      (fun i => [(if i = 0 then 1 else 0, none)]) (some 3) 0
      (by decide) 0⟩

/-- Witness for C7's amended statement: a dense 1×2 matrix of ones
satisfies the invariant for the draw `{0}`, and a 1×1 all-missing matrix is
rejected by `create_train_test_mask`. -/

theorem masks_respect_missing_amended_witness :
    maskInvariant (fun (_ : Fin 1) (_ : Fin 2) => some (1 : ℚ))
        (splitMask 1 2 fun _ => {0}) ∧
      ∀ (m' c' : ℕ) (data' : Fin m' → Fin c' → Option ℚ)
        (choose' : Fin m' → Finset (Fin c')),
        (∃ i j, data' i j = none) →
        create_train_test_mask data' choose'
          = .error "data already contains NaNs and further masking is ambiguous!" :=
  masks_respect_missing_amended (fun _ _ => some 1) (fun _ => {0})
    (fun _ _ => rfl)

end EmotionCF
